import Mathlib

set_option linter.unusedVariables false

/-!
Shallow embedding of the ZLToolKit ring-buffer subsystem
(source: src/Util/RingBuffer.h, namespace toolkit).

Modelling conventions:
- `T` is the opaque frame payload type (the C++ template parameter).
- C++ `int` counters are modelled as `Int`; signed overflow is undefined
  behaviour in C++ and is not modelled.
- `_data_cache.size() > _max_size` in `_RingStorageInternal::write` compares
  `size_t` (unsigned 64-bit) with `int`: the `int` is converted to `size_t`,
  i.e. reduced modulo 2 to the 64, which the model reproduces with `emod`.
- User callbacks (`_read_cb`, `_detach_cb`, `_on_size_changed`,
  `onReaderChanged`) are side-effecting `std::function`s; the model records
  their observable invocations as explicit outputs: `onRead` returns whether
  `_read_cb(data)` was invoked, `flushGop`/`setReadCB` return the list of
  frames passed to `_read_cb`, dispatcher/buffer operations return the
  events they emit.  Whether `_read_cb` currently holds a user callback
  (as opposed to the default no-op lambda) is tracked by `has_read_cb`.
- Weak-pointer expiry and cross-thread deallocation hooks (`on_dealloc`)
  are concurrency features outside the shallow embedding; the dispatcher's
  `_reader_map` is modelled as the list of live readers.
- `EventPoller::Ptr` identity is modelled as `Nat`; `isCurrentThread()` is
  passed as an explicit boolean argument at each call.
-/

/-- The value of `SIZE_MAX + 1` on an LP64 platform (2 to the 64), used to
model the implicit int-to-size_t conversion. -/
def two64 : Int := 18446744073709551616

/-- Mirrors `_RingStorageInternal<T>`: the bounded deque of
`(is_key, payload)` entries plus its capacity `_max_size`. -/
structure RingStorageInternal (T : Type) where
  data_cache : List (Bool × T)
  max_size : Int
  deriving DecidableEq

/-- Mirrors `_RingStorageInternal::write`: on a key frame clear the deque
first; append the entry; if `size() > _max_size` (size_t-vs-int comparison,
so `_max_size` is converted to unsigned) pop the oldest entry. -/
def RingStorageInternal.write {T : Type} (s : RingStorageInternal T) (inp : T) (is_key : Bool) :
    RingStorageInternal T :=
  let c1 := if is_key then [] else s.data_cache
  let c2 := c1 ++ [(is_key, inp)]
  let c3 := if (c2.length : Int) > s.max_size % two64 then c2.drop 1 else c2
  { s with data_cache := c3 }

/-- Mirrors `_RingStorageInternal::clone`. -/
def RingStorageInternal.clone {T : Type} (s : RingStorageInternal T) : RingStorageInternal T :=
  { data_cache := s.data_cache, max_size := s.max_size }

/-- Mirrors `_RingStorage<T>`: the adaptive storage wrapping an internal
deque, with the auto-sizing bookkeeping (`_beset_size`, `_total_count`,
`_last_key_count`, `_can_resize`, `_max_size`). -/
structure RingStorage (T : Type) where
  storage_internal : RingStorageInternal T
  beset_size : Int
  total_count : Int
  last_key_count : Int
  can_resize : Bool
  max_size : Int
  deriving DecidableEq

/-- Mirrors the `_RingStorage(int size, int max_size)` constructor: when
`size <= 0` auto-sizing is enabled and the internal capacity starts at
`max_size`.  (When `size > 0` the C++ leaves the member `_max_size`
uninitialized; that path never reads it, and the model stores the
constructor argument there.) -/
def RingStorage.make (T : Type) (size max_size : Int) : RingStorage T :=
  if size ≤ 0 then
    { storage_internal := { data_cache := [], max_size := max_size }
      beset_size := 0, total_count := 0, last_key_count := 0
      can_resize := true, max_size := max_size }
  else
    { storage_internal := { data_cache := [], max_size := size }
      beset_size := 0, total_count := 0, last_key_count := 0
      can_resize := false, max_size := max_size }

/-- Mirrors `_RingStorage::maxSize` (delegates to the internal deque). -/
def RingStorage.maxSize {T : Type} (s : RingStorage T) : Int :=
  s.storage_internal.max_size

/-- Mirrors `_RingStorage::getCache`. -/
def RingStorage.getCache {T : Type} (s : RingStorage T) : List (Bool × T) :=
  s.storage_internal.data_cache

/-- Mirrors `_RingStorage::computeGopSize` (RING_MIN_SIZE is 1): a no-op
unless auto-sizing is enabled and `_beset_size` is still 0; counts writes;
on the first key frame records `_last_key_count`; on the second key frame
fixes `_beset_size` to twice the inter-key distance clamped to
`[1, _max_size]` and replaces the internal deque with a fresh one of that
capacity.  Returns the new state and the C++ return value. -/
def RingStorage.computeGopSize {T : Type} (s : RingStorage T) (is_key : Bool) :
    RingStorage T × Bool :=
  if !s.can_resize || s.beset_size != 0 then
    (s, false)
  else
    let total := s.total_count + 1
    if !is_key then
      ({ s with total_count := total }, false)
    else if s.last_key_count = 0 then
      ({ s with total_count := total, last_key_count := total }, false)
    else
      let b1 := (total - s.last_key_count) * 2
      let b2 := if b1 > s.max_size then s.max_size else b1
      let b3 := if b2 < 1 then 1 else b2
      ({ s with
          total_count := total, beset_size := b3,
          storage_internal := { data_cache := [], max_size := b3 } }, true)

/-- Mirrors `_RingStorage::write`: run `computeGopSize`, then write into the
(possibly freshly reallocated) internal deque. -/
def RingStorage.write {T : Type} (s : RingStorage T) (inp : T) (is_key : Bool) : RingStorage T :=
  let s1 := (s.computeGopSize is_key).1
  { s1 with storage_internal := s1.storage_internal.write inp is_key }

/-- Mirrors `_RingStorage::clone` (a deep copy of all state). -/
def RingStorage.clone {T : Type} (s : RingStorage T) : RingStorage T :=
  { storage_internal := s.storage_internal.clone
    beset_size := s.beset_size, total_count := s.total_count
    last_key_count := s.last_key_count, can_resize := s.can_resize
    max_size := s.max_size }

/-- Applies a sequence of writes (oldest first) to a storage; each element
is `(is_key, payload)` as passed to `_RingStorage::write`. -/
def RingStorage.writeAll {T : Type} (s : RingStorage T) (ws : List (Bool × T)) : RingStorage T :=
  ws.foldl (fun acc w => acc.write w.2 w.1) s

/-- Mirrors `_RingReader<T>`: the per-subscriber gating state.
`has_read_cb` / `has_detach_cb` record whether `_read_cb` / `_detach_cb`
currently hold a user callback rather than the default no-op lambda. -/
structure RingReader (T : Type) where
  use_cache : Bool
  start_on_read : Bool := false
  ignored_count : Int := 0
  has_read_cb : Bool := false
  has_detach_cb : Bool := false
  deriving DecidableEq

/-- Mirrors `_RingReader::onRead`.  `storage` is the shared `_storage`
(the dispatcher's cache) whose `maxSize()` the third branch consults.
Returns the new reader state and whether `_read_cb(data)` was invoked. -/
def RingReader.onRead {T : Type} (r : RingReader T) (storage : RingStorage T)
    (data : T) (is_key : Bool) : RingReader T × Bool :=
  if r.start_on_read || !r.use_cache then
    (r, true)
  else if !r.start_on_read && is_key then
    ({ r with start_on_read := true }, true)
  else
    let ic := r.ignored_count + 1
    if ic ≥ storage.maxSize then
      ({ r with ignored_count := ic, start_on_read := true }, false)
    else
      ({ r with ignored_count := ic }, false)

/-- Mirrors `_RingReader::flushGop`: replay the storage's cached entries,
oldest first, through `onRead`.  Returns the new reader state and the list
of frames that were delivered to `_read_cb`. -/
def RingReader.flushGop {T : Type} (r : RingReader T) (storage : RingStorage T) :
    RingReader T × List T :=
  if !r.use_cache then
    (r, [])
  else
    storage.getCache.foldl
      (fun acc pr =>
        let st := acc.1.onRead storage pr.2 pr.1
        (st.1, acc.2 ++ if st.2 then [pr.2] else []))
      (r, [])

/-- The reader-state effect of `setReadCB` storing a non-null callback:
`_ignored_count = 0`, `_start_on_read = false`, `_read_cb = cb`. -/
def RingReader.resetForCB {T : Type} (r : RingReader T) : RingReader T :=
  { r with ignored_count := 0, start_on_read := false, has_read_cb := true }

/-- Mirrors `_RingReader::setReadCB`: a null callback is replaced by a no-op
and nothing else happens; a non-null callback resets `_ignored_count` and
`_start_on_read`, stores the callback, and replays the cache via
`flushGop`.  Returns the new reader state and the frames delivered during
the replay. -/
def RingReader.setReadCB {T : Type} (r : RingReader T) (cb_present : Bool)
    (storage : RingStorage T) : RingReader T × List T :=
  if !cb_present then
    ({ r with has_read_cb := false }, [])
  else
    (r.resetForCB).flushGop storage

/-- Mirrors `_RingReader::setDetachCB`. -/
def RingReader.setDetachCB {T : Type} (r : RingReader T) (cb_present : Bool) : RingReader T :=
  if !cb_present then
    { r with has_detach_cb := false }
  else
    { r with has_detach_cb := true }

/-- Outcome of an `attach` call: either the C++ `throw std::runtime_error`
raised when the caller is not on the poller's thread, or the returned
reader handle. -/
inductive AttachOutcome (T : Type) where
  | throwNotInPollerThread : AttachOutcome T
  | attached : RingReader T → AttachOutcome T
  deriving DecidableEq

/-- Mirrors `_RingReaderDispatcher<T>`: the per-poller fan-out object.
`reader_map` is the list of live registered readers (weak-pointer expiry
is a concurrency feature not modelled); `reader_size` is `_reader_size`. -/
structure RingReaderDispatcher (T : Type) where
  storage : RingStorage T
  reader_map : List (RingReader T) := []
  reader_size : Int := 0
  deriving DecidableEq

/-- Mirrors `_RingReaderDispatcher::attach`: throws unless called on the
poller's own thread; otherwise creates a fresh reader bound to the
dispatcher's storage, registers it, increments `_reader_size` and emits a
size-changed event `(new size, add_flag = true)`.  Returns the new
dispatcher state, the outcome, and the emitted size-changed events. -/
def RingReaderDispatcher.attach {T : Type} (d : RingReaderDispatcher T)
    (poller_is_current_thread : Bool) (use_cache : Bool) :
    RingReaderDispatcher T × AttachOutcome T × List (Int × Bool) :=
  if !poller_is_current_thread then
    (d, AttachOutcome.throwNotInPollerThread, [])
  else
    let reader : RingReader T := { use_cache := use_cache }
    let d1 : RingReaderDispatcher T :=
      { d with reader_map := d.reader_map ++ [reader], reader_size := d.reader_size + 1 }
    (d1, AttachOutcome.attached reader, [(d1.reader_size, true)])

/-- Mirrors `_RingReaderDispatcher::write`: every live reader's `onRead`
runs against the pre-write storage, then the frame is written into the
dispatcher's own storage.  Returns the per-reader delivery flags. -/
def RingReaderDispatcher.write {T : Type} (d : RingReaderDispatcher T) (inp : T)
    (is_key : Bool) : RingReaderDispatcher T × List Bool :=
  let step := d.reader_map.map (fun r => r.onRead d.storage inp is_key)
  ({ d with
      reader_map := step.map Prod.fst,
      storage := d.storage.write inp is_key }, step.map Prod.snd)

/-- Mirrors `_RingReaderDispatcher::readerCount`. -/
def RingReaderDispatcher.readerCount {T : Type} (d : RingReaderDispatcher T) : Int :=
  d.reader_size

/-- Mirrors `RingBuffer<T>`: the canonical storage, the optional write
delegate (modelled by whether one is installed), and the map from poller
identity to dispatcher. -/
structure RingBuffer (T : Type) where
  storage : RingStorage T
  has_delegate : Bool := false
  dispatcher_map : List (Nat × RingReaderDispatcher T) := []
  deriving DecidableEq

/-- Mirrors the `RingBuffer(int size = 0, int max_size = 1024, ...)`
constructor. -/
def RingBuffer.make (T : Type) (size max_size : Int) : RingBuffer T :=
  { storage := RingStorage.make T size max_size }

/-- Lookup of `_dispatcher_map[poller]` without the side effect of
inserting a default entry (insertion is modelled explicitly in `attach`). -/
def lookupDispatcher {T : Type} (m : List (Nat × RingReaderDispatcher T)) (p : Nat) :
    Option (RingReaderDispatcher T) :=
  match m with
  | [] => none
  | pr :: rest => if pr.1 = p then some pr.2 else lookupDispatcher rest p

/-- Replaces the entry for poller `p` in the dispatcher map. -/
def updateDispatcher {T : Type} (m : List (Nat × RingReaderDispatcher T)) (p : Nat)
    (d : RingReaderDispatcher T) : List (Nat × RingReaderDispatcher T) :=
  match m with
  | [] => []
  | pr :: rest => if pr.1 = p then (p, d) :: rest else pr :: updateDispatcher rest p d

/-- The observable effects of one `RingBuffer::write`: the calls forwarded
to the delegate's `onWrite`, and the `(poller, frame, is_key)` tasks posted
asynchronously to the registered pollers. -/
structure WriteEffect (T : Type) where
  delegated : List (T × Bool)
  posted : List (Nat × T × Bool)
  deriving DecidableEq

/-- Mirrors `RingBuffer::write`: with a delegate installed the call forwards
exclusively to `_delegate->onWrite` and returns; otherwise, under the map
mutex, the canonical storage is written and one async task per registered
poller is posted. -/
def RingBuffer.write {T : Type} (b : RingBuffer T) (inp : T) (is_key : Bool) :
    RingBuffer T × WriteEffect T :=
  if b.has_delegate then
    (b, { delegated := [(inp, is_key)], posted := [] })
  else
    ({ b with storage := b.storage.write inp is_key },
     { delegated := [],
       posted := b.dispatcher_map.map (fun pr => (pr.1, inp, is_key)) })

/-- Applies a sequence of `(is_key, payload)` writes to a buffer, discarding
the per-write effects. -/
def RingBuffer.writeAll {T : Type} (b : RingBuffer T) (ws : List (Bool × T)) : RingBuffer T :=
  ws.foldl (fun acc w => (acc.write w.2 w.1).1) b

/-- Mirrors `RingBuffer::attach`: under the map mutex, look up the poller's
dispatcher, lazily creating it from a clone of the canonical storage when
absent (registration happens before the dispatcher-level thread check);
then delegate to `_RingReaderDispatcher::attach`, whose exception
propagates. -/
def RingBuffer.attach {T : Type} (b : RingBuffer T) (poller : Nat)
    (poller_is_current_thread : Bool) (use_cache : Bool) :
    RingBuffer T × AttachOutcome T :=
  match lookupDispatcher b.dispatcher_map poller with
  | some d =>
      let res := d.attach poller_is_current_thread use_cache
      ({ b with dispatcher_map := updateDispatcher b.dispatcher_map poller res.1 }, res.2.1)
  | none =>
      let d : RingReaderDispatcher T := { storage := b.storage.clone }
      let res := d.attach poller_is_current_thread use_cache
      ({ b with dispatcher_map := b.dispatcher_map ++ [(poller, res.1)] }, res.2.1)

/-- Mirrors `RingBuffer::readerCount`: the sum of the dispatchers'
`readerCount`s. -/
def RingBuffer.readerCount {T : Type} (b : RingBuffer T) : Int :=
  (b.dispatcher_map.map (fun pr => pr.2.readerCount)).sum

/-- Total number of registered subscribers across all dispatchers in the
buffer's map (counts actual `_reader_map` entries). -/
def RingBuffer.totalReaders {T : Type} (b : RingBuffer T) : Nat :=
  (b.dispatcher_map.map (fun pr => pr.2.reader_map.length)).sum

/-- The reader state freshly constructed by `new RingReader(_storage, use_cache)`:
`_start_on_read = false`, `_ignored_count = 0`, both callbacks the default
no-ops. -/
def freshReader (T : Type) (use_cache : Bool) : RingReader T :=
  { use_cache := use_cache }

/-- A concrete buffer with a write delegate installed. -/
def bufferWithDelegate : RingBuffer Nat where
  storage := RingStorage.make Nat 0 10
  has_delegate := true
  dispatcher_map := []

/-- A concrete fixed-size storage whose cache holds one key frame `42`. -/
def storageWithKey : RingStorage Nat where
  storage_internal := { data_cache := [(true, 42)], max_size := 10 }
  beset_size := 0
  total_count := 1
  last_key_count := 1
  can_resize := false
  max_size := 10

/-- A concrete dispatcher whose private cache holds one key frame `42`. -/
def dispatcherWithKey : RingReaderDispatcher Nat where
  storage := storageWithKey
  reader_map := []
  reader_size := 0

/-- The cached entries start at or after the most recent boundary write:
for every decomposition of the write sequence around a key write, the
entries fit within the remainder that starts at that key (so no entry
predates the most recent key, which may itself be the first cached
entry). -/
def keysCond {T : Type} (ws entries : List (Bool × T)) : Prop :=
  ∀ (p : List (Bool × T)) (x : T) (q : List (Bool × T)),
    ws = p ++ (true, x) :: q → entries.length ≤ q.length + 1

/-! Helper lemmas about the dispatcher map. -/

theorem updateDispatcher_self {T : Type} (m : List (Nat × RingReaderDispatcher T)) (p : Nat)
    (d : RingReaderDispatcher T) (h : lookupDispatcher m p = some d) :
    updateDispatcher m p d = m := by
  induction m with
  | nil => simp [lookupDispatcher] at h
  | cons pr rest ih =>
    unfold lookupDispatcher at h
    unfold updateDispatcher
    by_cases hp : pr.1 = p
    · rw [if_pos hp] at h ⊢
      have h2 : pr.2 = d := by simpa using h
      cases pr with
      | mk a c =>
        simp only at hp h2
        rw [hp, h2]
    · rw [if_neg hp] at h ⊢
      rw [ih h]

theorem lookupDispatcher_append_self {T : Type} (m : List (Nat × RingReaderDispatcher T))
    (p : Nat) (d : RingReaderDispatcher T) (h : lookupDispatcher m p = none) :
    lookupDispatcher (m ++ [(p, d)]) p = some d := by
  induction m with
  | nil => simp [lookupDispatcher]
  | cons pr rest ih =>
    rw [List.cons_append]
    simp only [lookupDispatcher] at h ⊢
    by_cases hp : pr.1 = p
    · rw [if_pos hp] at h
      exact absurd h (by simp)
    · rw [if_neg hp] at h ⊢
      exact ih h

/-- C8: starting from `RingBuffer(0, 10)` and writing
`A(key), B, C, D(key), E` (encoded as payloads `0..4`), the canonical cache
ends as `[(key, D), (non-key, E)]`, the capacity is fixed at `6`, the
capacity still being `10` just before `D` is written and `6` from the
moment `D` is written. -/
theorem concrete_gop_scenario :
    ((RingBuffer.make Nat 0 10).writeAll
        [(true, 0), (false, 1), (false, 2), (true, 3), (false, 4)]).storage.getCache
      = [(true, 3), (false, 4)] ∧
    ((RingBuffer.make Nat 0 10).writeAll
        [(true, 0), (false, 1), (false, 2), (true, 3), (false, 4)]).storage.maxSize = 6 ∧
    ((RingBuffer.make Nat 0 10).writeAll
        [(true, 0), (false, 1), (false, 2)]).storage.maxSize = 10 ∧
    ((RingBuffer.make Nat 0 10).writeAll
        [(true, 0), (false, 1), (false, 2), (true, 3)]).storage.maxSize = 6 := by
  refine ⟨by decide, by decide, by decide, by decide⟩

/-- C1 counterexample: a gating reader (`use_cache = true`, still awaiting a
key frame) on a storage of capacity 1 receives a non-key frame; its
`ignored_count` reaches the capacity, so it force-transitions to streaming
(`start_on_read = true`), but — contrary to the claim — that very frame is
NOT delivered to the read callback (`onRead` returns `false` for the
delivery flag). -/
theorem forced_transition_no_delivery_cex :
    ((freshReader Nat true).onRead (RingStorage.make Nat 1 1) 5 false).1.start_on_read = true ∧
    ((freshReader Nat true).onRead (RingStorage.make Nat 1 1) 5 false).2 = false := by
  refine ⟨by decide, by decide⟩

/-- C1 amended: for every gating subscriber that is not yet streaming, when
`onRead` receives a non-key frame and the incremented `ignored_count`
reaches the storage's current capacity, the subscriber force-transitions to
streaming, but that very frame is NOT delivered to the read callback; every
subsequent frame is delivered. -/
theorem forced_transition_delivers_from_next_frame {T : Type} (r : RingReader T)
    (st : RingStorage T) (x : T)
    (h1 : r.use_cache = true) (h2 : r.start_on_read = false)
    (h3 : st.maxSize ≤ r.ignored_count + 1) :
    (r.onRead st x false).1.start_on_read = true ∧
    (r.onRead st x false).2 = false ∧
    ∀ (st2 : RingStorage T) (y : T) (k : Bool),
      ((r.onRead st x false).1.onRead st2 y k).2 = true := by
  have hcond : r.ignored_count + 1 ≥ st.maxSize := h3
  unfold RingReader.onRead
  rw [h1, h2]
  simp only [Bool.not_true, Bool.or_false, Bool.false_or, Bool.not_false, Bool.true_and,
    Bool.and_false, if_false, Bool.false_and]
  rw [if_pos hcond]
  refine ⟨rfl, rfl, ?_⟩
  intro st2 y k
  simp

/-- C1 witness: the amended theorem applied at a concrete input. -/
theorem forced_transition_delivers_from_next_frame_witness :
    ((freshReader Nat true).use_cache = true ∧ (freshReader Nat true).start_on_read = false ∧
     (RingStorage.make Nat 1 1).maxSize ≤ (freshReader Nat true).ignored_count + 1) ∧
    (((freshReader Nat true).onRead (RingStorage.make Nat 1 1) 5 false).1.start_on_read = true ∧
     ((freshReader Nat true).onRead (RingStorage.make Nat 1 1) 5 false).2 = false ∧
     ∀ (st2 : RingStorage Nat) (y : Nat) (k : Bool),
       (((freshReader Nat true).onRead (RingStorage.make Nat 1 1) 5 false).1.onRead st2 y k).2
         = true) :=
  ⟨⟨by decide, by decide, by decide⟩,
   forced_transition_delivers_from_next_frame (freshReader Nat true) (RingStorage.make Nat 1 1) 5
     (by decide) (by decide) (by decide)⟩

/-- C4: an `attach` call from a thread that is not the poller's own thread
throws and registers no subscriber (the total registered-reader count is
unchanged); an `attach` from the poller's own thread succeeds and returns
the fresh subscriber handle. -/
theorem attach_thread_affinity {T : Type} (b : RingBuffer T) (p : Nat) (uc : Bool) :
    ((b.attach p false uc).2 = AttachOutcome.throwNotInPollerThread ∧
     (b.attach p false uc).1.totalReaders = b.totalReaders) ∧
    (b.attach p true uc).2 = AttachOutcome.attached (freshReader T uc) := by
  unfold RingBuffer.attach
  cases hl : lookupDispatcher b.dispatcher_map p with
  | some d =>
    refine ⟨⟨rfl, ?_⟩, rfl⟩
    show ({ b with dispatcher_map := updateDispatcher b.dispatcher_map p d } :
        RingBuffer T).totalReaders = b.totalReaders
    rw [updateDispatcher_self b.dispatcher_map p d hl]
  | none =>
    refine ⟨⟨rfl, ?_⟩, rfl⟩
    show ({ b with dispatcher_map :=
        b.dispatcher_map ++ [(p, { storage := b.storage.clone })] } :
        RingBuffer T).totalReaders = b.totalReaders
    unfold RingBuffer.totalReaders
    simp

/-- C5 counterexample: attaching with `use_cache = true` to a dispatcher
whose cache holds a key frame does NOT replay the cache: the returned
subscriber still has its initial gating state (`start_on_read = false`),
whereas pushing the cache through the gating logic (`flushGop`, which runs
only from `setReadCB`) would have set `start_on_read = true` and delivered
the frame. -/
theorem attach_does_not_replay_cex :
    (dispatcherWithKey.attach true true).2.1 = AttachOutcome.attached (freshReader Nat true) ∧
    (freshReader Nat true).start_on_read = false ∧
    ((freshReader Nat true).flushGop dispatcherWithKey.storage).1.start_on_read = true ∧
    ((freshReader Nat true).flushGop dispatcherWithKey.storage).2 = [42] := by
  refine ⟨by decide, by decide, by decide, by decide⟩

/-- C5 amended: `attach` itself performs no replay — it returns the
subscriber in its initial state with the default no-op read callback; the
full-cache replay through the gating logic happens when a non-null read
callback is installed (`setReadCB` resets the gating state and runs
`flushGop` over the dispatcher's current cache). -/
theorem replay_happens_at_setReadCB {T : Type} (d : RingReaderDispatcher T) (uc : Bool) :
    (d.attach true uc).2.1 = AttachOutcome.attached (freshReader T uc) ∧
    (freshReader T uc).start_on_read = false ∧
    (freshReader T uc).ignored_count = 0 ∧
    (freshReader T uc).has_read_cb = false ∧
    ∀ r : RingReader T,
      r.setReadCB true d.storage = (r.resetForCB).flushGop d.storage := by
  refine ⟨rfl, rfl, rfl, rfl, ?_⟩
  intro r
  rfl

/-- C7: with a write delegate installed, `RingBuffer::write` forwards the
frame and key flag exclusively to the delegate: the buffer state (canonical
cache and dispatcher map included) is unchanged and no task is posted to
any poller. -/
theorem write_with_delegate_bypasses {T : Type} (b : RingBuffer T) (inp : T) (k : Bool)
    (h : b.has_delegate = true) :
    (b.write inp k).1 = b ∧
    (b.write inp k).2.delegated = [(inp, k)] ∧
    (b.write inp k).2.posted = [] := by
  unfold RingBuffer.write
  rw [h]
  exact ⟨rfl, rfl, rfl⟩

/-- C7 witness: the delegate-bypass theorem at a concrete buffer. -/
theorem write_with_delegate_bypasses_witness :
    bufferWithDelegate.has_delegate = true ∧
    ((bufferWithDelegate.write 7 true).1 = bufferWithDelegate ∧
     (bufferWithDelegate.write 7 true).2.delegated = [(7, true)] ∧
     (bufferWithDelegate.write 7 true).2.posted = []) :=
  ⟨rfl, write_with_delegate_bypasses bufferWithDelegate 7 true rfl⟩

/-- C9: installing a null read callback replaces the callback with a no-op
but leaves the gating state untouched (`ignored_count` and `start_on_read`
keep their values) and performs no replay; a non-null callback resets the
gating state and replays the cache via `flushGop`. -/
theorem null_read_cb_keeps_gating_state {T : Type} (r : RingReader T) (st : RingStorage T) :
    (r.setReadCB false st).1.ignored_count = r.ignored_count ∧
    (r.setReadCB false st).1.start_on_read = r.start_on_read ∧
    (r.setReadCB false st).1.use_cache = r.use_cache ∧
    (r.setReadCB false st).1.has_read_cb = false ∧
    (r.setReadCB false st).2 = [] ∧
    (r.setReadCB true st = (r.resetForCB).flushGop st ∧
     r.resetForCB.ignored_count = 0 ∧ r.resetForCB.start_on_read = false) := by
  exact ⟨rfl, rfl, rfl, rfl, rfl, rfl, rfl, rfl⟩

/-- C10: calling `attach` for a poller that has no dispatcher yet, from a
foreign thread, first registers a freshly created dispatcher (seeded with a
clone of the canonical storage) in the buffer's map and only then throws;
the failed call therefore leaves behind a registered dispatcher with zero
subscribers. -/
theorem attach_foreign_thread_leaks_dispatcher {T : Type} (b : RingBuffer T) (p : Nat)
    (uc : Bool) (h : lookupDispatcher b.dispatcher_map p = none) :
    (b.attach p false uc).2 = AttachOutcome.throwNotInPollerThread ∧
    lookupDispatcher (b.attach p false uc).1.dispatcher_map p
      = some { storage := b.storage.clone, reader_map := [], reader_size := 0 } := by
  unfold RingBuffer.attach
  rw [h]
  exact ⟨rfl, lookupDispatcher_append_self b.dispatcher_map p _ h⟩

/-- C10 witness: the leaked-dispatcher theorem at a concrete buffer. -/
theorem attach_foreign_thread_leaks_dispatcher_witness :
    lookupDispatcher (RingBuffer.make Nat 0 10).dispatcher_map 3 = none ∧
    (((RingBuffer.make Nat 0 10).attach 3 false true).2
        = AttachOutcome.throwNotInPollerThread ∧
     lookupDispatcher ((RingBuffer.make Nat 0 10).attach 3 false true).1.dispatcher_map 3
       = some { storage := (RingBuffer.make Nat 0 10).storage.clone }) :=
  ⟨rfl, attach_foreign_thread_leaks_dispatcher (RingBuffer.make Nat 0 10) 3 true rfl⟩

/-! Helper lemmas about `RingStorage.writeAll` and the auto-sizing state. -/

theorem writeAll_append {T : Type} (s : RingStorage T) (l1 l2 : List (Bool × T)) :
    s.writeAll (l1 ++ l2) = (s.writeAll l1).writeAll l2 := by
  unfold RingStorage.writeAll
  exact List.foldl_append _ _ l1 l2

theorem writeAll_cons {T : Type} (s : RingStorage T) (w : Bool × T) (l : List (Bool × T)) :
    s.writeAll (w :: l) = (s.write w.2 w.1).writeAll l := rfl

theorem clamp_ite_eq (b1 H : Int) :
    (if (if b1 > H then H else b1) < 1 then 1 else if b1 > H then H else b1)
      = max 1 (min b1 H) := by
  split_ifs <;> omega

/-- The guard of `computeGopSize` passes (auto-sizing enabled, `_beset_size`
still unset): the C++ early return does not fire. -/
theorem computeGopSize_skip {T : Type} (s : RingStorage T) (k : Bool)
    (h : (!s.can_resize || s.beset_size != 0) = true) :
    s.computeGopSize k = (s, false) := by
  unfold RingStorage.computeGopSize
  rw [if_pos h]

/-- `computeGopSize` on a non-key write while still counting: only
`_total_count` moves. -/
theorem computeGopSize_nonkey {T : Type} (s : RingStorage T)
    (h : (!s.can_resize || s.beset_size != 0) = false) :
    s.computeGopSize false = ({ s with total_count := s.total_count + 1 }, false) := by
  unfold RingStorage.computeGopSize
  rw [if_neg (by simp [h])]
  simp only []
  rw [if_pos (by decide : ((!false) = true))]

/-- `computeGopSize` on the first key write records `_last_key_count`. -/
theorem computeGopSize_first_key {T : Type} (s : RingStorage T)
    (h : (!s.can_resize || s.beset_size != 0) = false) (hl : s.last_key_count = 0) :
    s.computeGopSize true
      = ({ s with
            total_count := s.total_count + 1,
            last_key_count := s.total_count + 1 }, false) := by
  unfold RingStorage.computeGopSize
  rw [if_neg (by simp [h])]
  simp only []
  rw [if_neg (by decide : ¬ ((!true) = true))]
  rw [if_pos hl]

/-- `computeGopSize` on the second key write fixes `_beset_size` to the
doubled inter-key distance clamped into `[RING_MIN_SIZE, _max_size]` and
reallocates the internal deque at that capacity. -/
theorem computeGopSize_second_key {T : Type} (s : RingStorage T)
    (h : (!s.can_resize || s.beset_size != 0) = false) (hl : ¬ s.last_key_count = 0) :
    s.computeGopSize true
      = ({ s with
            total_count := s.total_count + 1,
            beset_size := max 1 (min ((s.total_count + 1 - s.last_key_count) * 2) s.max_size),
            storage_internal :=
              { data_cache := [],
                max_size :=
                  max 1 (min ((s.total_count + 1 - s.last_key_count) * 2) s.max_size) } },
         true) := by
  unfold RingStorage.computeGopSize
  rw [if_neg (by simp [h])]
  simp only []
  rw [if_neg (by decide : ¬ ((!true) = true))]
  rw [if_neg hl]
  rw [clamp_ite_eq]

/-- A non-key write while auto-sizing is still counting: only `_total_count`
moves; capacity and all other sizing state are unchanged. -/
theorem write_nonkey_counting {T : Type} (s : RingStorage T) (x : T)
    (hc : s.can_resize = true) (hb : s.beset_size = 0) :
    (s.write x false).can_resize = true ∧
    (s.write x false).beset_size = 0 ∧
    (s.write x false).last_key_count = s.last_key_count ∧
    (s.write x false).total_count = s.total_count + 1 ∧
    (s.write x false).max_size = s.max_size ∧
    (s.write x false).storage_internal.max_size = s.storage_internal.max_size := by
  have h : (!s.can_resize || s.beset_size != 0) = false := by simp [hc, hb]
  unfold RingStorage.write
  rw [computeGopSize_nonkey s h]
  exact ⟨hc, hb, rfl, rfl, rfl, rfl⟩

/-- A run of non-key writes while auto-sizing is still counting. -/
theorem writeAll_nonkey_counting {T : Type} (l : List T) (s : RingStorage T)
    (hc : s.can_resize = true) (hb : s.beset_size = 0) :
    (s.writeAll (l.map (fun x => (false, x)))).can_resize = true ∧
    (s.writeAll (l.map (fun x => (false, x)))).beset_size = 0 ∧
    (s.writeAll (l.map (fun x => (false, x)))).last_key_count = s.last_key_count ∧
    (s.writeAll (l.map (fun x => (false, x)))).total_count = s.total_count + l.length ∧
    (s.writeAll (l.map (fun x => (false, x)))).max_size = s.max_size ∧
    (s.writeAll (l.map (fun x => (false, x)))).storage_internal.max_size
      = s.storage_internal.max_size := by
  induction l generalizing s with
  | nil =>
    refine ⟨hc, hb, rfl, ?_, rfl, rfl⟩
    show s.total_count = s.total_count + ((0 : Nat) : Int)
    simp
  | cons x rest ih =>
    have h1 := write_nonkey_counting s x hc hb
    have h2 := ih (s.write x false) h1.1 h1.2.1
    simp only [List.map_cons, writeAll_cons]
    refine ⟨h2.1, h2.2.1, ?_, ?_, ?_, ?_⟩
    · rw [h2.2.2.1, h1.2.2.1]
    · rw [h2.2.2.2.1, h1.2.2.2.1]
      simp only [List.length_cons]
      push_cast
      ring
    · rw [h2.2.2.2.2.1, h1.2.2.2.2.1]
    · rw [h2.2.2.2.2.2, h1.2.2.2.2.2]

/-- The first key write while auto-sizing is still counting records
`_last_key_count` and changes nothing else of the sizing state. -/
theorem write_first_key {T : Type} (s : RingStorage T) (a : T)
    (hc : s.can_resize = true) (hb : s.beset_size = 0) (hl : s.last_key_count = 0) :
    (s.write a true).can_resize = true ∧
    (s.write a true).beset_size = 0 ∧
    (s.write a true).last_key_count = s.total_count + 1 ∧
    (s.write a true).total_count = s.total_count + 1 ∧
    (s.write a true).max_size = s.max_size ∧
    (s.write a true).storage_internal.max_size = s.storage_internal.max_size := by
  have h : (!s.can_resize || s.beset_size != 0) = false := by simp [hc, hb]
  unfold RingStorage.write
  rw [computeGopSize_first_key s h hl]
  exact ⟨hc, hb, rfl, rfl, rfl, rfl⟩

/-- The second key write fixes `_beset_size` to twice the inter-key packet
count, clamped into `[RING_MIN_SIZE, _max_size]`, and reallocates the
internal deque to that capacity. -/
theorem write_second_key {T : Type} (s : RingStorage T) (b : T)
    (hc : s.can_resize = true) (hb : s.beset_size = 0) (hl : ¬ s.last_key_count = 0) :
    (s.write b true).beset_size
      = max 1 (min ((s.total_count + 1 - s.last_key_count) * 2) s.max_size) ∧
    (s.write b true).storage_internal.max_size = (s.write b true).beset_size ∧
    (s.write b true).max_size = s.max_size ∧
    (s.write b true).can_resize = true := by
  have h : (!s.can_resize || s.beset_size != 0) = false := by simp [hc, hb]
  unfold RingStorage.write
  rw [computeGopSize_second_key s h hl]
  exact ⟨rfl, rfl, rfl, hc⟩

/-- Once `_beset_size` is non-zero, a write changes no sizing state. -/
theorem write_frozen {T : Type} (s : RingStorage T) (x : T) (k : Bool)
    (hb : ¬ s.beset_size = 0) :
    (s.write x k).beset_size = s.beset_size ∧
    (s.write x k).can_resize = s.can_resize ∧
    (s.write x k).storage_internal.max_size = s.storage_internal.max_size ∧
    (s.write x k).max_size = s.max_size := by
  have h : (!s.can_resize || s.beset_size != 0) = true := by
    simp [bne_iff_ne, hb]
  unfold RingStorage.write
  rw [computeGopSize_skip s k h]
  exact ⟨rfl, rfl, rfl, rfl⟩

/-- Once `_beset_size` is non-zero, no later write sequence changes it or
the capacity. -/
theorem writeAll_frozen {T : Type} (ws : List (Bool × T)) (s : RingStorage T)
    (hb : ¬ s.beset_size = 0) :
    (s.writeAll ws).beset_size = s.beset_size ∧
    (s.writeAll ws).storage_internal.max_size = s.storage_internal.max_size := by
  induction ws generalizing s with
  | nil => exact ⟨rfl, rfl⟩
  | cons w rest ih =>
    have h1 := write_frozen s w.2 w.1 hb
    have h2 := ih (s.write w.2 w.1) (by rw [h1.1]; exact hb)
    rw [writeAll_cons]
    exact ⟨h2.1.trans h1.1, h2.2.trans h1.2.2.1⟩

/-- One write either leaves `_beset_size` and `_max_size` untouched or fixes
`_beset_size` to the clamped doubled inter-key distance. -/
theorem write_beset_cases {T : Type} (s : RingStorage T) (x : T) (k : Bool) :
    ((s.write x k).beset_size = s.beset_size ∧
     (s.write x k).max_size = s.max_size) ∨
    ((s.write x k).beset_size
        = max 1 (min ((s.total_count + 1 - s.last_key_count) * 2) s.max_size) ∧
     (s.write x k).max_size = s.max_size) := by
  by_cases hg : (!s.can_resize || s.beset_size != 0) = true
  · left
    unfold RingStorage.write
    rw [computeGopSize_skip s k hg]
    exact ⟨rfl, rfl⟩
  · have hg2 : (!s.can_resize || s.beset_size != 0) = false := by
      cases hx : (!s.can_resize || s.beset_size != 0) with
      | true => exact absurd hx hg
      | false => rfl
    cases k with
    | false =>
      left
      unfold RingStorage.write
      rw [computeGopSize_nonkey s hg2]
      exact ⟨rfl, rfl⟩
    | true =>
      by_cases hl : s.last_key_count = 0
      · left
        unfold RingStorage.write
        rw [computeGopSize_first_key s hg2 hl]
        exact ⟨rfl, rfl⟩
      · right
        unfold RingStorage.write
        rw [computeGopSize_second_key s hg2 hl]
        exact ⟨rfl, rfl⟩

/-- Along any write sequence starting from an auto-sizing storage,
`_max_size` stays `H` and `_beset_size` is either still unset or already
clamped into `[1, H]`. -/
theorem writeAll_beset_inv {T : Type} (H : Int) (hH : 1 ≤ H) (s : RingStorage T)
    (hs : s.max_size = H)
    (hb : s.beset_size = 0 ∨ (1 ≤ s.beset_size ∧ s.beset_size ≤ H))
    (ws : List (Bool × T)) :
    (s.writeAll ws).max_size = H ∧
    ((s.writeAll ws).beset_size = 0 ∨
     (1 ≤ (s.writeAll ws).beset_size ∧ (s.writeAll ws).beset_size ≤ H)) := by
  induction ws generalizing s with
  | nil => exact ⟨hs, hb⟩
  | cons w rest ih =>
    rw [writeAll_cons]
    apply ih
    · rcases write_beset_cases s w.2 w.1 with h | h
      · rw [h.2, hs]
      · rw [h.2, hs]
    · rcases write_beset_cases s w.2 w.1 with h | h
      · rw [h.1]; exact hb
      · right
        rw [h.1, hs]
        constructor
        · exact le_max_left 1 _
        · have hmin : min ((s.total_count + 1 - s.last_key_count) * 2) H ≤ H :=
            min_le_right _ _
          omega

/-- C6: for an auto-sizing storage (constructed with size 0 and hard max
`H ≥ 1`), once `_beset_size` has been computed it lies in `[1, H]` and no
later write sequence ever changes it. -/
theorem target_size_fixed_and_bounded {T : Type} (H : Int) (hH : 1 ≤ H)
    (ws : List (Bool × T))
    (hne : ¬ ((RingStorage.make T 0 H).writeAll ws).beset_size = 0) :
    (1 ≤ ((RingStorage.make T 0 H).writeAll ws).beset_size ∧
     ((RingStorage.make T 0 H).writeAll ws).beset_size ≤ H) ∧
    ∀ rest : List (Bool × T),
      ((((RingStorage.make T 0 H).writeAll ws).writeAll rest)).beset_size
        = ((RingStorage.make T 0 H).writeAll ws).beset_size := by
  have hmk_max : (RingStorage.make T 0 H).max_size = H := rfl
  have hmk_beset : (RingStorage.make T 0 H).beset_size = 0 := rfl
  have hinv := writeAll_beset_inv H hH (RingStorage.make T 0 H) hmk_max (Or.inl hmk_beset) ws
  rcases hinv.2 with h0 | hbd
  · exact absurd h0 hne
  · exact ⟨hbd, fun rest => (writeAll_frozen rest _ hne).1⟩

/-- C6 witness: the bounds-and-frozenness theorem at a concrete run (two
consecutive key writes fix `_beset_size` to 2). -/
theorem target_size_fixed_and_bounded_witness :
    ((1 : Int) ≤ 10 ∧
     ¬ ((RingStorage.make Nat 0 10).writeAll [(true, 1), (true, 2)]).beset_size = 0) ∧
    ((1 ≤ ((RingStorage.make Nat 0 10).writeAll [(true, 1), (true, 2)]).beset_size ∧
      ((RingStorage.make Nat 0 10).writeAll [(true, 1), (true, 2)]).beset_size ≤ 10) ∧
     ∀ rest : List (Bool × Nat),
       ((((RingStorage.make Nat 0 10).writeAll [(true, 1), (true, 2)]).writeAll rest)).beset_size
         = ((RingStorage.make Nat 0 10).writeAll [(true, 1), (true, 2)]).beset_size) :=
  ⟨⟨by decide, by decide⟩,
   target_size_fixed_and_bounded 10 (by decide) [(true, 1), (true, 2)] (by decide)⟩

/-- C2 counterexample: with `H = 10` and the first two boundary writes
separated by `k = 0` non-boundary writes, the claim predicts a capacity of
`clamp(2k, 1, H) = 1`, but the code fixes the capacity at 2 (the formula
counts the second boundary itself). -/
theorem auto_size_formula_cex :
    ((RingStorage.make Nat 0 10).writeAll [(true, 1), (true, 2)]).maxSize = 2 ∧
    ¬ ((RingStorage.make Nat 0 10).writeAll [(true, 1), (true, 2)]).maxSize = 1 := by
  refine ⟨by decide, by decide⟩

/-- C2 amended: for a storage constructed with size 0 and hard max `H ≥ 1`,
if the first two boundary writes are separated by exactly `k` non-boundary
writes (with any run of non-boundary writes before the first boundary),
then immediately after the second boundary write the capacity is fixed at
`clamp(2 * (k + 1), 1, H)` and no subsequent write sequence changes it. -/
theorem auto_size_convergence {T : Type} (H : Int) (hH : 1 ≤ H)
    (pre mid : List T) (a b : T) (rest : List (Bool × T)) :
    ((RingStorage.make T 0 H).writeAll
        (pre.map (fun x => (false, x))
          ++ (true, a) :: (mid.map (fun x => (false, x)) ++ [(true, b)]))).maxSize
      = max 1 (min (2 * ((mid.length : Int) + 1)) H) ∧
    (((RingStorage.make T 0 H).writeAll
        (pre.map (fun x => (false, x))
          ++ (true, a) :: (mid.map (fun x => (false, x)) ++ [(true, b)]))).writeAll rest).maxSize
      = max 1 (min (2 * ((mid.length : Int) + 1)) H) := by
  have h0c : (RingStorage.make T 0 H).can_resize = true := rfl
  have h0b : (RingStorage.make T 0 H).beset_size = 0 := rfl
  have h0l : (RingStorage.make T 0 H).last_key_count = 0 := rfl
  have h0t : (RingStorage.make T 0 H).total_count = 0 := rfl
  have h0m : (RingStorage.make T 0 H).max_size = H := rfl
  have h1 := writeAll_nonkey_counting pre (RingStorage.make T 0 H) h0c h0b
  set s1 := (RingStorage.make T 0 H).writeAll (pre.map (fun x => (false, x))) with hs1
  have h2 := write_first_key s1 a h1.1 h1.2.1 (by rw [h1.2.2.1, h0l])
  set s2 := s1.write a true with hs2
  have h3 := writeAll_nonkey_counting mid s2 h2.1 h2.2.1
  set s3 := s2.writeAll (mid.map (fun x => (false, x))) with hs3
  have hlk : ¬ s3.last_key_count = 0 := by
    rw [h3.2.2.1, h2.2.2.1, h1.2.2.2.1, h0t]
    intro hcontra
    omega
  have h4 := write_second_key s3 b h3.1 h3.2.1 hlk
  set s4 := s3.write b true with hs4
  have hd : s4.beset_size = max 1 (min (2 * ((mid.length : Int) + 1)) H) := by
    rw [h4.1, h3.2.2.2.1, h3.2.2.1, h2.2.2.2.1, h2.2.2.1, h1.2.2.2.1, h0t,
      h3.2.2.2.2.1, h2.2.2.2.2.1, h1.2.2.2.2.1, h0m]
    have harith : (0 + (pre.length : Int)) + 1 + (mid.length : Int) + 1
        - ((0 + (pre.length : Int)) + 1) = (mid.length : Int) + 1 := by ring
    rw [harith]
    have hmul : ((mid.length : Int) + 1) * 2 = 2 * ((mid.length : Int) + 1) := by ring
    rw [hmul]
  have hcap : s4.storage_internal.max_size = s4.beset_size := h4.2.1
  have hsplit : (RingStorage.make T 0 H).writeAll
      (pre.map (fun x => (false, x))
        ++ (true, a) :: (mid.map (fun x => (false, x)) ++ [(true, b)])) = s4 := by
    rw [writeAll_append]
    rw [writeAll_cons]
    rw [writeAll_append]
    rw [← hs1, ← hs2, ← hs3]
    rfl
  have hne : ¬ s4.beset_size = 0 := by
    rw [hd]
    have hge : (1 : Int) ≤ max 1 (min (2 * ((mid.length : Int) + 1)) H) := le_max_left 1 _
    omega
  constructor
  · rw [hsplit]
    show s4.storage_internal.max_size = _
    rw [hcap, hd]
  · rw [hsplit]
    show (s4.writeAll rest).storage_internal.max_size = _
    rw [(writeAll_frozen rest s4 hne).2, hcap, hd]

/-- C2 witness: the amended convergence theorem at a concrete run
(`H = 10`, one non-boundary frame between the two boundaries, one later
write), giving capacity `clamp(4, 1, 10) = 4`. -/
theorem auto_size_convergence_witness :
    (1 : Int) ≤ 10 ∧
    (((RingStorage.make Nat 0 10).writeAll
        (([7] : List Nat).map (fun x => (false, x))
          ++ (true, 1) :: ((([5] : List Nat).map (fun x => (false, x))) ++ [(true, 2)]))).maxSize
      = max 1 (min (2 * (((([5] : List Nat).length : Int)) + 1)) 10) ∧
    (((RingStorage.make Nat 0 10).writeAll
        (([7] : List Nat).map (fun x => (false, x))
          ++ (true, 1) :: ((([5] : List Nat).map (fun x => (false, x))) ++ [(true, 2)]))).writeAll
            [(false, 9)]).maxSize
      = max 1 (min (2 * (((([5] : List Nat).length : Int)) + 1)) 10)) :=
  ⟨by decide, auto_size_convergence 10 (by decide) [7] [5] 1 2 [(false, 9)]⟩

/-! Helper lemmas for the boundary-suffix invariant (C3). -/

theorem append_singleton_cases {α : Type} (l p q : List α) (a b : α)
    (h : l ++ [a] = p ++ b :: q) :
    (q = [] ∧ p = l ∧ b = a) ∨ ∃ q0, q = q0 ++ [a] ∧ l = p ++ b :: q0 := by
  rcases q.eq_nil_or_concat' with hq | ⟨q0, c, hq⟩
  · subst hq
    have h2 := List.append_inj' h (by simp)
    left
    refine ⟨rfl, h2.1.symm, ?_⟩
    have h3 := h2.2
    simp at h3
    exact h3.symm
  · subst hq
    rw [show p ++ b :: (q0 ++ [c]) = (p ++ b :: q0) ++ [c] by simp] at h
    have h2 := List.append_inj' h (by simp)
    right
    refine ⟨q0, ?_, h2.1⟩
    have h3 := h2.2
    simp at h3
    rw [h3]

theorem keysCond_mono {T : Type} {ws e e' : List (Bool × T)} (h : keysCond ws e)
    (hl : e'.length ≤ e.length) : keysCond ws e' := by
  intro p x q hq
  exact le_trans hl (h p x q hq)

theorem keysCond_append_nonkey {T : Type} {ws entries : List (Bool × T)} (x : T)
    (h : keysCond ws entries) :
    keysCond (ws ++ [(false, x)]) (entries ++ [(false, x)]) := by
  intro p y q hq
  rcases append_singleton_cases ws p q (false, x) (true, y) hq with
    ⟨hq0, hp, hxy⟩ | ⟨q0, hq0, hws⟩
  · exact absurd hxy (by simp)
  · have h2 := h p y q0 hws
    subst hq0
    simp only [List.length_append, List.length_cons, List.length_nil]
    omega

theorem keysCond_short {T : Type} (ws : List (Bool × T)) (w : Bool × T)
    (e : List (Bool × T)) (hle : e.length ≤ 1) :
    keysCond (ws ++ [w]) e := by
  intro p y q hq
  rcases append_singleton_cases ws p q w (true, y) hq with
    ⟨hq0, _, _⟩ | ⟨q0, hq0, _⟩
  · subst hq0
    simpa using hle
  · subst hq0
    simp only [List.length_append, List.length_cons, List.length_nil]
    omega

theorem suffix_append_singleton {α : Type} {l l' : List α} (a : α) (h : l <:+ l') :
    l ++ [a] <:+ l' ++ [a] := by
  obtain ⟨t, ht⟩ := h
  exact ⟨t, by rw [← List.append_assoc, ht]⟩

/-- The internal-deque step: one `_RingStorageInternal::write` preserves the
boundary-suffix shape, provided the capacity is a representable size_t
value (so the int-to-size_t conversion is the identity). -/
theorem internal_write_inv {T : Type} (si : RingStorageInternal T) (ws : List (Bool × T))
    (k : Bool) (x : T)
    (h0 : 0 ≤ si.max_size) (h1 : si.max_size < two64)
    (hD : si.data_cache <:+ ws)
    (hE : (si.data_cache.length : Int) ≤ si.max_size)
    (hF : keysCond ws si.data_cache) :
    (si.write x k).max_size = si.max_size ∧
    (si.write x k).data_cache <:+ ws ++ [(k, x)] ∧
    ((si.write x k).data_cache.length : Int) ≤ si.max_size ∧
    keysCond (ws ++ [(k, x)]) (si.write x k).data_cache := by
  have hemod : si.max_size % two64 = si.max_size := Int.emod_eq_of_lt h0 h1
  unfold RingStorageInternal.write
  simp only [hemod]
  cases k with
  | true =>
    simp only [if_true, List.nil_append]
    split_ifs with hpop
    · refine ⟨by first | rfl | trivial, ?_, ?_, ?_⟩
      · simp
      · simpa using h0
      · exact keysCond_short ws (true, x) _ (by simp)
    · refine ⟨by first | rfl | trivial, ?_, ?_, ?_⟩
      · exact ⟨ws, rfl⟩
      · simp only [List.length_singleton, Nat.cast_one] at hpop ⊢
        omega
      · exact keysCond_short ws (true, x) _ (by simp)
  | false =>
    simp only [Bool.false_eq_true, if_false]
    split_ifs with hpop
    · refine ⟨by first | rfl | trivial, ?_, ?_, ?_⟩
      · exact (List.drop_suffix 1 _).trans (suffix_append_singleton (false, x) hD)
      · simp only [List.length_drop, List.length_append, List.length_cons, List.length_nil]
        push_cast
        omega
      · exact keysCond_mono (keysCond_append_nonkey x hF) (by simp [List.length_drop])
    · refine ⟨by first | rfl | trivial, ?_, ?_, ?_⟩
      · exact suffix_append_singleton (false, x) hD
      · simp only [List.length_append, List.length_cons, List.length_nil] at hpop
        push_cast at hpop
        simp only [List.length_append, List.length_cons, List.length_nil]
        push_cast
        omega
      · exact keysCond_append_nonkey x hF

/-- The storage-level step: one `_RingStorage::write` preserves the whole
cache invariant (capacity representable, clamped on resize; entries a
suffix of the writes so far, within capacity, starting at or after the most
recent key). -/
theorem write_cache_inv_step {T : Type} (s : RingStorage T) (ws : List (Bool × T))
    (k : Bool) (x : T)
    (hA : 0 ≤ s.storage_internal.max_size) (hB : s.storage_internal.max_size < two64)
    (hC : s.can_resize = true → s.max_size < two64)
    (hD : s.storage_internal.data_cache <:+ ws)
    (hE : (s.storage_internal.data_cache.length : Int) ≤ s.storage_internal.max_size)
    (hF : keysCond ws s.storage_internal.data_cache) :
    0 ≤ (s.write x k).storage_internal.max_size ∧
    (s.write x k).storage_internal.max_size < two64 ∧
    ((s.write x k).can_resize = true → (s.write x k).max_size < two64) ∧
    (s.write x k).storage_internal.data_cache <:+ ws ++ [(k, x)] ∧
    ((s.write x k).storage_internal.data_cache.length : Int)
      ≤ (s.write x k).storage_internal.max_size ∧
    keysCond (ws ++ [(k, x)]) (s.write x k).storage_internal.data_cache := by
  by_cases hg : (!s.can_resize || s.beset_size != 0) = true
  · unfold RingStorage.write
    rw [computeGopSize_skip s k hg]
    have h := internal_write_inv s.storage_internal ws k x hA hB hD hE hF
    refine ⟨?_, ?_, hC, h.2.1, ?_, h.2.2.2⟩
    · show 0 ≤ (s.storage_internal.write x k).max_size
      rw [h.1]; exact hA
    · show (s.storage_internal.write x k).max_size < two64
      rw [h.1]; exact hB
    · show ((s.storage_internal.write x k).data_cache.length : Int)
        ≤ (s.storage_internal.write x k).max_size
      rw [h.1]; exact h.2.2.1
  · have hg2 : (!s.can_resize || s.beset_size != 0) = false := by
      cases hx : (!s.can_resize || s.beset_size != 0) with
      | true => exact absurd hx hg
      | false => rfl
    have hcr : s.can_resize = true := by
      rcases Bool.or_eq_false_iff.mp hg2 with ⟨hn, _⟩
      simpa using hn
    cases k with
    | false =>
      unfold RingStorage.write
      rw [computeGopSize_nonkey s hg2]
      have h := internal_write_inv s.storage_internal ws false x hA hB hD hE hF
      refine ⟨?_, ?_, hC, h.2.1, ?_, h.2.2.2⟩
      · show 0 ≤ (s.storage_internal.write x false).max_size
        rw [h.1]; exact hA
      · show (s.storage_internal.write x false).max_size < two64
        rw [h.1]; exact hB
      · show ((s.storage_internal.write x false).data_cache.length : Int)
          ≤ (s.storage_internal.write x false).max_size
        rw [h.1]; exact h.2.2.1
    | true =>
      by_cases hl : s.last_key_count = 0
      · unfold RingStorage.write
        rw [computeGopSize_first_key s hg2 hl]
        have h := internal_write_inv s.storage_internal ws true x hA hB hD hE hF
        refine ⟨?_, ?_, hC, h.2.1, ?_, h.2.2.2⟩
        · show 0 ≤ (s.storage_internal.write x true).max_size
          rw [h.1]; exact hA
        · show (s.storage_internal.write x true).max_size < two64
          rw [h.1]; exact hB
        · show ((s.storage_internal.write x true).data_cache.length : Int)
            ≤ (s.storage_internal.write x true).max_size
          rw [h.1]; exact h.2.2.1
      · unfold RingStorage.write
        rw [computeGopSize_second_key s hg2 hl]
        have hHm : s.max_size < two64 := hC hcr
        have hb3a : 0 ≤ max 1 (min ((s.total_count + 1 - s.last_key_count) * 2) s.max_size) := by
          have := le_max_left (1 : Int)
            (min ((s.total_count + 1 - s.last_key_count) * 2) s.max_size)
          omega
        have hb3b : max 1 (min ((s.total_count + 1 - s.last_key_count) * 2) s.max_size)
            < two64 := by
          have hm : min ((s.total_count + 1 - s.last_key_count) * 2) s.max_size
              ≤ s.max_size := min_le_right _ _
          have ht : (1 : Int) < two64 := by decide
          rcases max_cases (1 : Int)
            (min ((s.total_count + 1 - s.last_key_count) * 2) s.max_size) with h | h
          · rw [h.1] at *; omega
          · rw [h.1] at *; omega
        have hF0 : keysCond ws
            (([] : List (Bool × T))) := by
          intro p y q hq
          simp only [List.length_nil]
          omega
        have h := internal_write_inv
          { data_cache := [],
            max_size := max 1 (min ((s.total_count + 1 - s.last_key_count) * 2) s.max_size) }
          ws true x hb3a hb3b List.nil_suffix (by simp) hF0
        refine ⟨?_, ?_, hC, h.2.1, ?_, h.2.2.2⟩
        · show 0 ≤ ((RingStorageInternal.write _ x true)).max_size
          rw [h.1]; exact hb3a
        · show ((RingStorageInternal.write _ x true)).max_size < two64
          rw [h.1]; exact hb3b
        · show (((RingStorageInternal.write _ x true)).data_cache.length : Int)
            ≤ ((RingStorageInternal.write _ x true)).max_size
          rw [h.1]; exact h.2.2.1

/-- The full cache invariant holds after any write sequence applied to a
freshly constructed storage (capacities representable as size_t). -/
theorem writeAll_cache_inv {T : Type} (size H : Int) (ws : List (Bool × T))
    (h0 : 0 ≤ (if size ≤ 0 then H else size))
    (h1 : (if size ≤ 0 then H else size) < two64) :
    0 ≤ ((RingStorage.make T size H).writeAll ws).storage_internal.max_size ∧
    ((RingStorage.make T size H).writeAll ws).storage_internal.max_size < two64 ∧
    (((RingStorage.make T size H).writeAll ws).can_resize = true
      → ((RingStorage.make T size H).writeAll ws).max_size < two64) ∧
    ((RingStorage.make T size H).writeAll ws).storage_internal.data_cache <:+ ws ∧
    ((((RingStorage.make T size H).writeAll ws).storage_internal.data_cache.length : Int))
      ≤ ((RingStorage.make T size H).writeAll ws).storage_internal.max_size ∧
    keysCond ws ((RingStorage.make T size H).writeAll ws).storage_internal.data_cache := by
  induction ws using List.reverseRecOn with
  | nil =>
    have hmx : (RingStorage.make T size H).storage_internal.max_size
        = (if size ≤ 0 then H else size) := by
      unfold RingStorage.make
      split_ifs <;> rfl
    have hdc : (RingStorage.make T size H).storage_internal.data_cache = [] := by
      unfold RingStorage.make
      split_ifs <;> rfl
    simp only [RingStorage.writeAll, List.foldl_nil]
    refine ⟨by rw [hmx]; exact h0, by rw [hmx]; exact h1, ?_, ?_, ?_, ?_⟩
    · intro hcr
      have hmax : (RingStorage.make T size H).max_size = H := by
        unfold RingStorage.make
        split_ifs <;> rfl
      have hcr2 : size ≤ 0 := by
        by_contra hs
        have hfalse : (RingStorage.make T size H).can_resize = false := by
          unfold RingStorage.make
          rw [if_neg hs]
        rw [hfalse] at hcr
        simp at hcr
      rw [hmax]
      rw [if_pos hcr2] at h1
      exact h1
    · rw [hdc]
    · rw [hdc, hmx]
      simpa using h0
    · rw [hdc]
      intro p y q hq
      exact absurd hq (by simp)
  | append_singleton l w ih =>
    rw [writeAll_append]
    have hstep := write_cache_inv_step ((RingStorage.make T size H).writeAll l) l w.1 w.2
      ih.1 ih.2.1 ih.2.2.1 ih.2.2.2.1 ih.2.2.2.2.1 ih.2.2.2.2.2
    exact hstep

/-- C3: after any sequence of writes to a Cache (constructed with any
`size` and hard max `H` that are representable size_t capacities), the
stored entries form a contiguous suffix of the write sequence that starts
at or after the most recent boundary write, and the number of stored
entries is at most the current capacity. -/
theorem boundary_suffix_invariant {T : Type} (size H : Int) (ws : List (Bool × T))
    (h0 : 0 ≤ (if size ≤ 0 then H else size))
    (h1 : (if size ≤ 0 then H else size) < two64) :
    ((RingStorage.make T size H).writeAll ws).getCache <:+ ws ∧
    ((((RingStorage.make T size H).writeAll ws).getCache.length : Int))
      ≤ ((RingStorage.make T size H).writeAll ws).maxSize ∧
    keysCond ws ((RingStorage.make T size H).writeAll ws).getCache := by
  have h := writeAll_cache_inv size H ws h0 h1
  exact ⟨h.2.2.2.1, h.2.2.2.2.1, h.2.2.2.2.2⟩

/-- C3 witness: the boundary-suffix invariant at a concrete auto-sizing
run whose capacity shrinks to 2 and evicts past the most recent key. -/
theorem boundary_suffix_invariant_witness :
    ((0 : Int) ≤ (if (0 : Int) ≤ 0 then 3 else 0) ∧
     (if (0 : Int) ≤ 0 then 3 else (0 : Int)) < two64) ∧
    (((RingStorage.make Nat 0 3).writeAll
        [(false, 10), (true, 11), (false, 12), (true, 13), (false, 14)]).getCache
      <:+ [(false, 10), (true, 11), (false, 12), (true, 13), (false, 14)] ∧
     ((((RingStorage.make Nat 0 3).writeAll
        [(false, 10), (true, 11), (false, 12), (true, 13), (false, 14)]).getCache.length : Int))
      ≤ ((RingStorage.make Nat 0 3).writeAll
        [(false, 10), (true, 11), (false, 12), (true, 13), (false, 14)]).maxSize ∧
     keysCond [(false, 10), (true, 11), (false, 12), (true, 13), (false, 14)]
       ((RingStorage.make Nat 0 3).writeAll
        [(false, 10), (true, 11), (false, 12), (true, 13), (false, 14)]).getCache) :=
  ⟨⟨by decide, by decide⟩,
   boundary_suffix_invariant 0 3
     [(false, 10), (true, 11), (false, 12), (true, 13), (false, 14)]
     (by decide) (by decide)⟩
